import Mathlib

/-
Verification of the remote-identity resolution and command dispatch engine of
the `lab` command-line client.

Go strings are modelled as lists of characters (`GoStr`).  Go functions that
can return an `error` are modelled with the `GoResult` sum; a Go runtime
panic (index-out-of-range on a slice) is modelled by the `crash` constructor.
`strings.Split` is used by the source only with the separators "@", "//",
"/" and "\n"; it is embedded by `splitOnCharGo` (one-character separator)
and `splitOnTwo` (two-character separator), both following Go semantics:
the result is never empty, and `Split("", sep) = [""]`.
-/

abbrev GoStr := List Char

/-- Outcome of a Go call: a value, a returned error (with its message), or a
runtime crash (index out of range). -/
inductive GoResult (α : Type) where
  | ok (val : α)
  | err (msg : GoStr)
  | crash
deriving DecidableEq, Repr

/-- Go `strings.Split(s, sep)` for a one-character separator `sep`. -/
def splitOnCharGo (c : Char) : GoStr → List GoStr
  | [] => [[]]
  | x :: xs =>
    if x == c then [] :: splitOnCharGo c xs
    else
      match splitOnCharGo c xs with
      | [] => [[x]]
      | h :: t => (x :: h) :: t

/-- Go `strings.Split(s, sep)` for a two-character separator `a b` (used by
the source only with sep = "//"). -/
def splitOnTwo (a b : Char) : GoStr → List GoStr
  | [] => [[]]
  | [x] => [[x]]
  | x :: y :: rest =>
    if x == a && y == b then [] :: splitOnTwo a b rest
    else
      match splitOnTwo a b (y :: rest) with
      | [] => [[x]]
      | h :: t => (x :: h) :: t

/-- Go `strings.TrimSuffix(s, suf)`. -/
def goTrimSuffix (s suf : GoStr) : GoStr :=
  if suf.isSuffixOf s then s.take (s.length - suf.length) else s

/-- Characters with the Unicode White_Space property, as recognized by Go
`unicode.IsSpace`. -/
def isSpaceGo (c : Char) : Bool :=
  c == ' ' || c == '\t' || c == '\n' || (c.toNat ≥ 0xB && c.toNat ≤ 0xD) ||
  c.toNat == 0x85 || c.toNat == 0xA0 || c.toNat == 0x1680 ||
  (c.toNat ≥ 0x2000 && c.toNat ≤ 0x200A) ||
  c.toNat == 0x2028 || c.toNat == 0x2029 || c.toNat == 0x202F ||
  c.toNat == 0x205F || c.toNat == 0x3000

/-- Go `strings.TrimSpace(s)`: drop leading and trailing white space. -/
def goTrimSpace (s : GoStr) : GoStr :=
  ((s.dropWhile isSpaceGo).reverse.dropWhile isSpaceGo).reverse

/-- The `RemoteUrl` struct of the source: a parsed remote identity. -/
structure RemoteUrl where
  Url : GoStr
  Domain : GoStr
  User : GoStr
  Repository : GoStr
deriving DecidableEq, Repr

/-- Shared tail of `NewRemoteUrl`: `splitUrl := strings.Split(otherScheme, "/")`
followed by the unchecked accesses `splitUrl[0]`, `splitUrl[1]`, `splitUrl[2]`
(a crash when fewer than three segments exist). -/
def parseSegments (url otherScheme : GoStr) : GoResult RemoteUrl :=
  match splitOnCharGo '/' otherScheme with
  | domain :: user :: repository :: _ =>
    .ok { Url := url, Domain := domain, User := user, Repository := repository }
  | _ => .crash

/-- The source's `NewRemoteUrl`: scheme dispatch on the "ssh" / "https"
prefixes, `strings.Split(url, "@")[1]` resp. `strings.Split(url, "//")[1]`
(unchecked index 1), `.git` extension stripping for ssh, then segment
extraction. -/
def NewRemoteUrl (url : GoStr) : GoResult RemoteUrl :=
  if "ssh".toList.isPrefixOf url then
    match splitOnCharGo '@' url with
    | _ :: afterAt :: _ => parseSegments url (goTrimSuffix afterAt ".git".toList)
    | _ => .crash
  else if "https".toList.isPrefixOf url then
    match splitOnTwo '/' '/' url with
    | _ :: afterScheme :: _ => parseSegments url afterScheme
    | _ => .crash
  else
    .err ("Invalid remote url: ".toList ++ url)

/-- The source's `ConcatUrl` method on `RemoteUrl`. -/
def ConcatUrl (r : RemoteUrl) : GoStr :=
  "https://".toList ++ r.Domain ++ '/' :: r.User ++ '/' :: r.Repository

/-- Environment for `GitRemotes`: raw combined output of `git remote`, and of
`git remote get-url <name>` for each name (per `cmdOutput` in the source). -/
structure GitEnv where
  remoteOut : GoStr
  getUrlOut : GoStr → GoStr

/-- The source's `gitOutputs`, applied to the raw command output: split on
newlines and keep (untrimmed) lines whose `TrimSpace` is non-empty. -/
def gitOutputsOf (out : GoStr) : List GoStr :=
  (splitOnCharGo '\n' out).filter (fun line => !(goTrimSpace line).isEmpty)

/-- One iteration of the `GitRemotes` loop body: `gitOutput` takes index 0 of
`gitOutputs` (a crash when every output line is blank), then `NewRemoteUrl`;
a parse error is wrapped as `Failed serialize remote url. <url>`. -/
def resolveRemote (env : GitEnv) (remote : GoStr) : GoResult RemoteUrl :=
  match (gitOutputsOf (env.getUrlOut remote)).head? with
  | none => .crash
  | some url =>
    match NewRemoteUrl url with
    | .ok r => .ok r
    | .err _ => .err ("Failed serialize remote url. ".toList ++ url)
    | .crash => .crash

/-- The `for` loop of `GitRemotes`, with the accumulated slice threaded
through; the loop returns on the first remote that fails to resolve. -/
def gitRemotesLoop (env : GitEnv) : List GoStr → List RemoteUrl → GoResult (List RemoteUrl)
  | [], acc => .ok acc
  | remote :: rest, acc =>
    match resolveRemote env remote with
    | .ok r => gitRemotesLoop env rest (acc ++ [r])
    | .err m => .err m
    | .crash => .crash

/-- The zero value of `RemoteUrl`, the single element of
`make([]RemoteUrl, 1)`. -/
def zeroRemoteUrl : RemoteUrl := { Url := [], Domain := [], User := [], Repository := [] }

/-- The source's `GitRemotes`: enumerate remote names, fail when there are
none, then fold the resolution loop over them starting from the one-element
zero-valued slice produced by `make([]RemoteUrl, 1)`. -/
def GitRemotes (env : GitEnv) : GoResult (List RemoteUrl) :=
  let remotes := gitOutputsOf env.remoteOut
  if remotes.isEmpty then .err "No remote setting in this repository".toList
  else gitRemotesLoop env remotes [zeroRemoteUrl]

/-- The filter predicate of `FilterGitlabRemote`:
`strings.HasPrefix(gitRemote.Domain, "gitlab")`. -/
def isGitlabRemote (r : RemoteUrl) : Bool :=
  "gitlab".toList.isPrefixOf r.Domain

/-- The source's `FilterGitlabRemote`: keep the remotes whose domain starts
with "gitlab" and return the first one, or an error when there is none. -/
def FilterGitlabRemote (gitRemotes : List RemoteUrl) : GoResult RemoteUrl :=
  match gitRemotes.filter isGitlabRemote with
  | r :: _ => .ok r
  | [] => .err "Not a cloned repository from gitlab.".toList

/-- The `CreateUpdateMergeRequestOption` flag bundle of the source. -/
structure CreateUpdateMergeRequestOption where
  Edit : Bool
  Title : GoStr
  Message : GoStr
  Template : GoStr
  SourceBranch : GoStr
  TargetBranch : GoStr
  StateEvent : GoStr
  AssigneeID : Int
deriving DecidableEq, Repr

/-- The `ListMergeRequestOption` flag bundle of the source (its `Sort` field
is named `SortOpt` here because `Sort` is a Lean keyword). -/
structure ListMergeRequestOption where
  Num : Int
  State : GoStr
  Scope : GoStr
  OrderBy : GoStr
  SortOpt : GoStr
  Opened : Bool
  Closed : Bool
  Merged : Bool
  CreatedMe : Bool
  AssignedMe : Bool
  AllProject : Bool
deriving DecidableEq, Repr

/-- Values the go-flags parser assigns when no create/update flag is given
(string defaults are empty, `TargetBranch` defaults to "master",
`AssigneeID` to 0). -/
def defaultCreateUpdateOption : CreateUpdateMergeRequestOption :=
  { Edit := false, Title := [], Message := [], Template := [], SourceBranch := [],
    TargetBranch := "master".toList, StateEvent := [], AssigneeID := 0 }

/-- Values the go-flags parser assigns when no list flag is given, per the
`default:"..."` struct tags of the source. -/
def defaultListOption : ListMergeRequestOption :=
  { Num := 20, State := "all".toList, Scope := "all".toList,
    OrderBy := "updated_at".toList, SortOpt := "desc".toList,
    Opened := false, Closed := false, Merged := false,
    CreatedMe := false, AssignedMe := false, AllProject := false }

/-- The source's `GetState` method on `ListMergeRequestOption`. -/
def GetState (l : ListMergeRequestOption) : GoStr :=
  if l.Opened then "opened".toList
  else if l.Closed then "closed".toList
  else if l.Merged then "merged".toList
  else l.State

/-- The source's `GetScope` method on `ListMergeRequestOption`. -/
def GetScope (l : ListMergeRequestOption) : GoStr :=
  if l.CreatedMe then "created-by-me".toList
  else if l.AssignedMe then "assigned-to-me".toList
  else l.Scope

/-- Digit run value for `goAtoi`. -/
def digitsVal (l : GoStr) : Nat :=
  l.foldl (fun acc c => acc * 10 + (c.toNat - '0'.toNat)) 0

/-- Decimal digit test for `goAtoi`. -/
def isDigitChar (c : Char) : Bool := '0' ≤ c && c ≤ '9'

/-- Sign-stripped core of Go `strconv.Atoi`: one or more decimal digits,
value within the 64-bit int range, else an error (`none`). -/
def goAtoiCore (neg : Bool) (ds : GoStr) : Option Int :=
  if ds.isEmpty then none
  else if ds.all isDigitChar then
    let v : Int := if neg then -(digitsVal ds : Int) else (digitsVal ds : Int)
    if -(2 ^ 63) ≤ v ∧ v ≤ 2 ^ 63 - 1 then some v else none
  else none

/-- Go `strconv.Atoi`: an optional leading sign followed by decimal digits;
`none` models a non-nil error (syntax or 64-bit range). -/
def goAtoi : GoStr → Option Int
  | [] => none
  | '+' :: ds => goAtoiCore false ds
  | '-' :: ds => goAtoiCore true ds
  | s => goAtoiCore false s

/-- The source's `validMergeRequestIID`: an empty argument list yields 0 with
no error; otherwise `strconv.Atoi` on the first argument, with a non-nil
error reported as `Invalid Issue IID. IID: <arg>`. -/
def validMergeRequestIID (args : List GoStr) : GoResult Int :=
  match args with
  | [] => .ok 0
  | a0 :: _ =>
    match goAtoi a0 with
    | some iid => .ok iid
    | none => .err ("Invalid Issue IID. IID: ".toList ++ a0)

/-- The source's `hasCreateUpdateOption`. -/
def hasCreateUpdateOption (opt : CreateUpdateMergeRequestOption) : Bool :=
  !opt.Title.isEmpty || !opt.Message.isEmpty || !opt.StateEvent.isEmpty ||
  opt.AssigneeID != 0

/-- The seven strategy objects `getMethod` can build, tagged by the method
struct the source instantiates; the merge-request IID is the only selection
relevant payload (the client, project and option fields are plumbing). -/
inductive Method where
  | updateOnEditor (id : Int)
  | update (id : Int)
  | detail (id : Int)
  | createOnEditor
  | create
  | listAll
  | list
deriving DecidableEq, Repr

/-- The decision core of the source's `getMethod`: validate the IID from the
positional arguments, then branch on argument presence, the edit flag, the
content-bearing create/update flags, the title and the all-project flag.
(The provider/client lookups preceding this logic in the source are external
I/O plumbing and are not part of the selection.) -/
def getMethod (createUpdateOption : CreateUpdateMergeRequestOption)
    (listOption : ListMergeRequestOption) (args : List GoStr) : GoResult Method :=
  match validMergeRequestIID args with
  | .err m => .err m
  | .crash => .crash
  | .ok iid =>
    if args.length > 0 then
      if createUpdateOption.Edit then .ok (.updateOnEditor iid)
      else if hasCreateUpdateOption createUpdateOption then .ok (.update iid)
      else .ok (.detail iid)
    else
      if createUpdateOption.Edit then .ok .createOnEditor
      else if !createUpdateOption.Title.isEmpty then .ok .create
      else if listOption.AllProject then .ok .listAll
      else .ok .list

/-- Modelled from the spec: the editor collaborator (`git.NewEditor`,
`EditTitleAndDescription`, `DeleteFile`) lives in the `git` package, which is
not among the provided sources.  Per the spec, `NewEditor` creates the
temporary template file and `DeleteFile` removes it; the environment records
the outcomes of the two external calls. -/
structure EditorEnv where
  newEditorErr : Option GoStr
  editResult : Except GoStr (GoStr × GoStr)

/-- Observable outcome of `editIssueTitleAndDesc`: the returned triple plus
whether the temporary template file was created and whether `DeleteFile` was
invoked before returning. -/
structure EditFlowResult where
  title : GoStr
  description : GoStr
  err : Option GoStr
  fileCreated : Bool
  deleteFileCalled : Bool
deriving DecidableEq, Repr

/-- The source's `editIssueTitleAndDesc` control flow: return on a
`NewEditor` error; return on an `EditTitleAndDescription` error — at that
point the `defer editor.DeleteFile()` statement has not yet executed, so no
deletion is registered; on success the deferred deletion runs at return. -/
def editIssueTitleAndDesc (env : EditorEnv) : EditFlowResult :=
  match env.newEditorErr with
  | some e =>
    { title := [], description := [], err := some e,
      fileCreated := false, deleteFileCalled := false }
  | none =>
    match env.editResult with
    | .error e =>
      { title := [], description := [], err := some e,
        fileCreated := true, deleteFileCalled := false }
    | .ok (t, d) =>
      { title := t, description := d, err := none,
        fileCreated := true, deleteFileCalled := true }

/-- URL of the well-formed SSH shape `ssh://user@H/O/P.git`. -/
def sshUrlOf (user h o p : GoStr) : GoStr :=
  "ssh://".toList ++ user ++ '@' :: (h ++ '/' :: (o ++ '/' :: (p ++ ".git".toList)))

/-- URL of the well-formed HTTPS shape `https://H/O/P`. -/
def httpsUrlOf (h o p : GoStr) : GoStr :=
  "https://".toList ++ (h ++ '/' :: (o ++ '/' :: p))

/-- Two equal adjacent characters test, used to state when a string contains
no occurrence of the two-character separator "//". -/
def hasDoubleChar (c : Char) : GoStr → Bool
  | x :: y :: rest => (x == c && y == c) || hasDoubleChar c (y :: rest)
  | _ => false

/-! ### Facts about the embedded Go string primitives -/

theorem splitOnCharGo_of_not_mem (c : Char) :
    ∀ l : GoStr, c ∉ l → splitOnCharGo c l = [l] := by
  intro l
  induction l with
  | nil => intro _; rfl
  | cons x xs ih =>
    intro h
    have hx : (x == c) = false := by
      simp only [beq_eq_false_iff_ne]
      intro e
      exact h (e ▸ List.mem_cons_self x xs)
    have hxs : c ∉ xs := fun m => h (List.mem_cons_of_mem _ m)
    simp [splitOnCharGo, hx, ih hxs]

theorem splitOnCharGo_append (c : Char) :
    ∀ (l₁ l₂ : GoStr), c ∉ l₁ →
      splitOnCharGo c (l₁ ++ c :: l₂) = l₁ :: splitOnCharGo c l₂ := by
  intro l₁
  induction l₁ with
  | nil => intro l₂ _; simp [splitOnCharGo]
  | cons x xs ih =>
    intro l₂ h
    have hx : (x == c) = false := by
      simp only [beq_eq_false_iff_ne]
      intro e
      exact h (e ▸ List.mem_cons_self x xs)
    have hxs : c ∉ xs := fun m => h (List.mem_cons_of_mem _ m)
    simp [splitOnCharGo, hx, ih l₂ hxs]

theorem isPrefixOf_append_self : ∀ p t : GoStr, p.isPrefixOf (p ++ t) = true := by
  intro p t
  induction p with
  | nil => simp
  | cons x xs ih => simp [List.isPrefixOf_cons₂, ih]

theorem goTrimSuffix_append (l s : GoStr) : goTrimSuffix (l ++ s) s = l := by
  unfold goTrimSuffix
  have hsuf : s.isSuffixOf (l ++ s) = true := by
    unfold List.isSuffixOf
    rw [List.reverse_append]
    exact isPrefixOf_append_self s.reverse l.reverse
  rw [hsuf]
  simp only [if_true, List.length_append, Nat.add_sub_cancel]
  exact List.take_left l s

theorem hasDoubleChar_append (c : Char) :
    ∀ (l rest : GoStr), c ∉ l →
      hasDoubleChar c (l ++ rest) = hasDoubleChar c rest := by
  intro l
  induction l with
  | nil => intro rest _; rfl
  | cons x xs ih =>
    intro rest h
    have hx : (x == c) = false := by
      simp only [beq_eq_false_iff_ne]
      intro e
      exact h (e ▸ List.mem_cons_self x xs)
    have hxs : c ∉ xs := fun m => h (List.mem_cons_of_mem _ m)
    cases hxr : xs ++ rest with
    | nil =>
      obtain ⟨h1, h2⟩ := List.append_eq_nil.mp hxr
      subst h1; subst h2
      rfl
    | cons b m =>
      have : hasDoubleChar c (x :: xs ++ rest) = hasDoubleChar c (xs ++ rest) := by
        rw [List.cons_append, hxr]
        simp [hasDoubleChar, hx]
      rw [this, ih rest hxs]

theorem hasDoubleChar_of_not_mem (c : Char) (l : GoStr) (h : c ∉ l) :
    hasDoubleChar c l = false := by
  have := hasDoubleChar_append c l [] h
  simpa using this

theorem splitOnTwo_no_double (c : Char) :
    ∀ l : GoStr, hasDoubleChar c l = false → splitOnTwo c c l = [l] := by
  intro l
  induction l with
  | nil => intro _; rfl
  | cons x xs ih =>
    cases xs with
    | nil => intro _; rfl
    | cons y rest =>
      intro hd
      rw [show hasDoubleChar c (x :: y :: rest)
            = ((x == c && y == c) || hasDoubleChar c (y :: rest)) from rfl] at hd
      obtain ⟨h1, h2⟩ := Bool.or_eq_false_iff.mp hd
      simp [splitOnTwo, h1, ih h2]

theorem splitOnTwo_https (rest : GoStr) (hd : hasDoubleChar '/' rest = false) :
    splitOnTwo '/' '/' ("https:".toList ++ '/' :: '/' :: rest)
      = ["https:".toList, rest] := by
  have step : splitOnTwo '/' '/' ("https:".toList ++ '/' :: '/' :: rest)
      = "https:".toList :: splitOnTwo '/' '/' rest := rfl
  rw [step, splitOnTwo_no_double '/' rest hd]

theorem hasDoubleChar_joined (c : Char) (h o p : GoStr)
    (hh : c ∉ h) (ho : c ∉ o) (hp : c ∉ p) (hone : o ≠ []) :
    hasDoubleChar c (h ++ c :: (o ++ c :: p)) = false := by
  rw [hasDoubleChar_append c h _ hh]
  cases o with
  | nil => exact absurd rfl hone
  | cons b o2 =>
    have hb : (b == c) = false := by
      simp only [beq_eq_false_iff_ne]
      intro e
      exact ho (e ▸ List.mem_cons_self b o2)
    have step : hasDoubleChar c (c :: (b :: o2 ++ c :: p))
        = hasDoubleChar c ((b :: o2) ++ c :: p) := by
      simp [hasDoubleChar, hb]
    rw [step, hasDoubleChar_append c (b :: o2) _ ho]
    cases p with
    | nil => rfl
    | cons q p2 =>
      have hq : (q == c) = false := by
        simp only [beq_eq_false_iff_ne]
        intro e
        exact hp (e ▸ List.mem_cons_self q p2)
      have step2 : hasDoubleChar c (c :: q :: p2) = hasDoubleChar c (q :: p2) := by
        simp [hasDoubleChar, hq]
      rw [step2]
      exact hasDoubleChar_of_not_mem c (q :: p2) hp

/-! ### Parsing lemmas for `NewRemoteUrl` -/

theorem parseSegments_joined (url h o p : GoStr)
    (hh : '/' ∉ h) (ho : '/' ∉ o) (hp : '/' ∉ p) :
    parseSegments url (h ++ '/' :: (o ++ '/' :: p))
      = .ok { Url := url, Domain := h, User := o, Repository := p } := by
  unfold parseSegments
  rw [splitOnCharGo_append '/' h _ hh, splitOnCharGo_append '/' o _ ho,
    splitOnCharGo_of_not_mem '/' p hp]

theorem NewRemoteUrl_ssh (user h o p : GoStr)
    (hu : '@' ∉ user) (hah : '@' ∉ h) (hao : '@' ∉ o) (hap : '@' ∉ p)
    (hsh : '/' ∉ h) (hso : '/' ∉ o) (hsp : '/' ∉ p) :
    NewRemoteUrl (sshUrlOf user h o p)
      = .ok { Url := sshUrlOf user h o p, Domain := h, User := o, Repository := p } := by
  have hpre : "ssh".toList.isPrefixOf (sshUrlOf user h o p) = true := by
    unfold sshUrlOf
    rfl
  have hrest : '@' ∉ (h ++ '/' :: (o ++ '/' :: (p ++ ".git".toList))) := by
    intro hc
    rcases List.mem_append.mp hc with hc | hc
    · exact hah hc
    rcases List.mem_cons.mp hc with hc | hc
    · exact absurd hc (by decide)
    rcases List.mem_append.mp hc with hc | hc
    · exact hao hc
    rcases List.mem_cons.mp hc with hc | hc
    · exact absurd hc (by decide)
    rcases List.mem_append.mp hc with hc | hc
    · exact hap hc
    · exact absurd hc (by decide)
  have hpart : '@' ∉ ("ssh://".toList ++ user) := by
    intro hc
    rcases List.mem_append.mp hc with hc | hc
    · exact absurd hc (by decide)
    · exact hu hc
  have hshape : sshUrlOf user h o p
      = ("ssh://".toList ++ user) ++ '@' :: (h ++ '/' :: (o ++ '/' :: (p ++ ".git".toList))) := by
    unfold sshUrlOf
    rw [List.append_assoc]
  have hsplit : splitOnCharGo '@' (sshUrlOf user h o p)
      = ("ssh://".toList ++ user)
        :: [h ++ '/' :: (o ++ '/' :: (p ++ ".git".toList))] := by
    rw [hshape, splitOnCharGo_append '@' _ _ hpart,
      splitOnCharGo_of_not_mem '@' _ hrest]
  have htrim : goTrimSuffix (h ++ '/' :: (o ++ '/' :: (p ++ ".git".toList))) ".git".toList
      = h ++ '/' :: (o ++ '/' :: p) := by
    have : h ++ '/' :: (o ++ '/' :: (p ++ ".git".toList))
        = (h ++ '/' :: (o ++ '/' :: p)) ++ ".git".toList := by
      simp
    rw [this, goTrimSuffix_append]
  simp only [NewRemoteUrl, hpre, if_true, hsplit, htrim]
  exact parseSegments_joined _ h o p hsh hso hsp

theorem NewRemoteUrl_https (h o p : GoStr)
    (hsh : '/' ∉ h) (hso : '/' ∉ o) (hsp : '/' ∉ p) (hone : o ≠ []) :
    NewRemoteUrl (httpsUrlOf h o p)
      = .ok { Url := httpsUrlOf h o p, Domain := h, User := o, Repository := p } := by
  have hpre1 : "ssh".toList.isPrefixOf (httpsUrlOf h o p) = false := by
    unfold httpsUrlOf
    rfl
  have hpre2 : "https".toList.isPrefixOf (httpsUrlOf h o p) = true := by
    unfold httpsUrlOf
    rfl
  have hshape : httpsUrlOf h o p
      = "https:".toList ++ '/' :: '/' :: (h ++ '/' :: (o ++ '/' :: p)) := by
    unfold httpsUrlOf
    rfl
  have hdc : hasDoubleChar '/' (h ++ '/' :: (o ++ '/' :: p)) = false :=
    hasDoubleChar_joined '/' h o p hsh hso hsp hone
  have hsplit : splitOnTwo '/' '/' (httpsUrlOf h o p)
      = ["https:".toList, h ++ '/' :: (o ++ '/' :: p)] := by
    rw [hshape]
    exact splitOnTwo_https _ hdc
  simp only [NewRemoteUrl, hpre1, hpre2, Bool.false_eq_true, if_false, if_true, hsplit]
  exact parseSegments_joined _ h o p hsh hso hsp

theorem NewRemoteUrl_other (url : GoStr)
    (h1 : "ssh".toList.isPrefixOf url = false)
    (h2 : "https".toList.isPrefixOf url = false) :
    NewRemoteUrl url = .err ("Invalid remote url: ".toList ++ url) := by
  simp only [NewRemoteUrl, h1, h2, Bool.false_eq_true, if_false]

/-! ### Lemmas about remote discovery -/

theorem gitRemotesLoop_ok_shape (env : GitEnv) :
    ∀ (names : List GoStr) (acc l : List RemoteUrl),
      gitRemotesLoop env names acc = .ok l →
      ∃ parsed : List RemoteUrl,
        l = acc ++ parsed ∧ parsed.length = names.length ∧
        ∀ i r, names.get? i = some r →
          ∃ u, parsed.get? i = some u ∧ resolveRemote env r = .ok u := by
  intro names
  induction names with
  | nil =>
    intro acc l hl
    simp only [gitRemotesLoop, GoResult.ok.injEq] at hl
    subst hl
    exact ⟨[], by simp, rfl, by intro i r h; simp at h⟩
  | cons n rest ih =>
    intro acc l hl
    cases hres : resolveRemote env n with
    | ok x =>
      simp only [gitRemotesLoop, hres] at hl
      obtain ⟨parsed, hl1, hl2, hl3⟩ := ih (acc ++ [x]) l hl
      refine ⟨x :: parsed, ?_, by simp [hl2], ?_⟩
      · rw [hl1]; simp
      · intro i r h
        cases i with
        | zero =>
          simp only [List.get?_cons_zero, Option.some.injEq] at h
          subst h
          exact ⟨x, rfl, hres⟩
        | succ j =>
          simp only [List.get?_cons_succ] at h ⊢
          exact hl3 j r h
    | err m => simp [gitRemotesLoop, hres] at hl
    | crash => simp [gitRemotesLoop, hres] at hl

theorem GitRemotes_ok_shape (env : GitEnv) (l : List RemoteUrl)
    (hl : GitRemotes env = .ok l) :
    ∃ parsed : List RemoteUrl,
      l = zeroRemoteUrl :: parsed ∧
      parsed.length = (gitOutputsOf env.remoteOut).length ∧
      ∀ i r, (gitOutputsOf env.remoteOut).get? i = some r →
        ∃ u, parsed.get? i = some u ∧ resolveRemote env r = .ok u := by
  unfold GitRemotes at hl
  cases hemp : (gitOutputsOf env.remoteOut).isEmpty with
  | true => simp only [hemp, if_true] at hl; exact absurd hl (by simp)
  | false =>
    simp only [hemp, Bool.false_eq_true, if_false] at hl
    obtain ⟨parsed, h1, h2, h3⟩ := gitRemotesLoop_ok_shape env _ _ l hl
    exact ⟨parsed, by simpa using h1, h2, h3⟩

theorem filter_head_eq_find {α : Type} (p : α → Bool) :
    ∀ l : List α, (l.filter p).head? = l.find? p := by
  intro l
  induction l with
  | nil => rfl
  | cons a l ih => cases hpa : p a <;> simp [List.filter_cons, List.find?_cons, hpa, ih]

theorem FilterGitlabRemote_eq_find (l : List RemoteUrl) :
    FilterGitlabRemote l
      = match l.find? isGitlabRemote with
        | some r => .ok r
        | none => .err "Not a cloned repository from gitlab.".toList := by
  have h := filter_head_eq_find isGitlabRemote l
  unfold FilterGitlabRemote
  cases hf : l.filter isGitlabRemote with
  | nil => rw [hf] at h; simp only [List.head?_nil] at h; rw [← h]
  | cons r t => rw [hf] at h; simp only [List.head?_cons] at h; rw [← h]

theorem gitOutputsOf_line_nl (u : GoStr) (hmem : '\n' ∉ u)
    (hne : (goTrimSpace u).isEmpty = false) :
    gitOutputsOf (u ++ ['\n']) = [u] := by
  unfold gitOutputsOf
  have h1 : splitOnCharGo '\n' (u ++ ['\n']) = [u, []] := by
    have := splitOnCharGo_append '\n' u [] hmem
    simpa [splitOnCharGo] using this
  rw [h1]
  have h0 : (goTrimSpace ([] : GoStr)).isEmpty = true := rfl
  simp [List.filter, hne, h0]

theorem gitOutputsOf_line (u : GoStr) (hmem : '\n' ∉ u)
    (hne : (goTrimSpace u).isEmpty = false) :
    gitOutputsOf u = [u] := by
  unfold gitOutputsOf
  rw [splitOnCharGo_of_not_mem '\n' u hmem]
  simp [List.filter, hne]

/-! ### Claim theorems -/

/-- Claim C1: the claim states that a URL whose remainder after the scheme
splits into fewer than three "/"-separated segments fails with a
malformed-URL error and never causes an out-of-range access.  The code
instead performs an unchecked slice access there: on both an https and an
ssh URL with a one-segment remainder, `NewRemoteUrl` crashes
(index out of range) instead of returning an error. -/
theorem newRemoteUrl_short_url_crashes :
    NewRemoteUrl "https://gitlab.com".toList = .crash ∧
    NewRemoteUrl "ssh://git@gitlab.com".toList = .crash := by
  exact ⟨by decide, by decide⟩

/-- Claim C2: the claim states that `editIssueTitleAndDesc` deletes the
temporary template file on every exit path, in particular when
`EditTitleAndDescription` fails.  In the code the `defer editor.DeleteFile()`
is registered only after the error return from `EditTitleAndDescription`, so
on that failure path the created file is never deleted; on the success path
it is. -/
theorem editIssueTitleAndDesc_error_skips_delete :
    (editIssueTitleAndDesc
      { newEditorErr := none, editResult := Except.error "editor failed".toList }).fileCreated
        = true ∧
    (editIssueTitleAndDesc
      { newEditorErr := none, editResult := Except.error "editor failed".toList }).deleteFileCalled
        = false ∧
    (editIssueTitleAndDesc
      { newEditorErr := none, editResult := Except.error "editor failed".toList }).err
        = some "editor failed".toList ∧
    (editIssueTitleAndDesc
      { newEditorErr := none, editResult := Except.ok ("t".toList, "b".toList) }).deleteFileCalled
        = true := by
  exact ⟨rfl, rfl, rfl, rfl⟩

/-- Claim C4: the claim states that whenever `NewRemoteUrl` succeeds the
host, owner and project fields are all non-empty.  The code violates this:
"https://gitlab.com/owner/" parses successfully with an empty project field,
and "ssh://git@//" parses successfully with all three fields empty. -/
theorem newRemoteUrl_succeeds_with_empty_fields :
    NewRemoteUrl "https://gitlab.com/owner/".toList
      = .ok { Url := "https://gitlab.com/owner/".toList, Domain := "gitlab.com".toList,
              User := "owner".toList, Repository := [] } ∧
    NewRemoteUrl "ssh://git@//".toList
      = .ok { Url := "ssh://git@//".toList, Domain := [], User := [], Repository := [] } := by
  exact ⟨by decide, by decide⟩

/-- Claim C5 counterexample: the claim states that negative literals fail
with an invalid-identifier error, but `strconv.Atoi` accepts them, so
`validMergeRequestIID ["-5"]` succeeds with identifier -5. -/
theorem validMergeRequestIID_accepts_negative :
    validMergeRequestIID ["-5".toList] = .ok (-5) := by
  decide

/-- Claim C5 (amended): identifier resolution consults only the first
positional argument; an empty list yields identifier 0 (absent) with no
error; a first token rejected by `strconv.Atoi` (such as "abc") fails with
the invalid-identifier error; an accepted token yields its value ("42" gives
42, and negative literals such as "-5" are accepted, giving -5); extra
positional arguments are ignored. -/
theorem validMergeRequestIID_spec :
    validMergeRequestIID [] = .ok 0 ∧
    (∀ (s : GoStr) (rest : List GoStr), goAtoi s = none →
      validMergeRequestIID (s :: rest)
        = .err ("Invalid Issue IID. IID: ".toList ++ s)) ∧
    (∀ (s : GoStr) (rest : List GoStr) (n : Int), goAtoi s = some n →
      validMergeRequestIID (s :: rest) = .ok n) ∧
    goAtoi "abc".toList = none ∧
    goAtoi "42".toList = some 42 ∧
    goAtoi "-5".toList = some (-5) ∧
    (∀ (s : GoStr) (r1 r2 : List GoStr),
      validMergeRequestIID (s :: r1) = validMergeRequestIID (s :: r2)) := by
  refine ⟨rfl, ?_, ?_, by decide, by decide, by decide, ?_⟩
  · intro s rest h
    simp [validMergeRequestIID, h]
  · intro s rest n h
    simp [validMergeRequestIID, h]
  · intro s r1 r2
    rfl

/-- Claim C7: `GetState` resolves the effective state by first-match-wins
precedence opened > closed > merged > the explicit state string, whose
go-flags default is "all"; `GetScope` resolves the effective scope by
created-by-me > assigned-to-me > the explicit scope string, defaulting to
"all"; in particular opened with state "closed" resolves to "opened". -/
theorem getState_getScope_precedence :
    (∀ l : ListMergeRequestOption, l.Opened = true → GetState l = "opened".toList) ∧
    (∀ l : ListMergeRequestOption, l.Opened = false → l.Closed = true →
      GetState l = "closed".toList) ∧
    (∀ l : ListMergeRequestOption, l.Opened = false → l.Closed = false →
      l.Merged = true → GetState l = "merged".toList) ∧
    (∀ l : ListMergeRequestOption, l.Opened = false → l.Closed = false →
      l.Merged = false → GetState l = l.State) ∧
    GetState defaultListOption = "all".toList ∧
    (∀ l : ListMergeRequestOption, l.CreatedMe = true →
      GetScope l = "created-by-me".toList) ∧
    (∀ l : ListMergeRequestOption, l.CreatedMe = false → l.AssignedMe = true →
      GetScope l = "assigned-to-me".toList) ∧
    (∀ l : ListMergeRequestOption, l.CreatedMe = false → l.AssignedMe = false →
      GetScope l = l.Scope) ∧
    GetScope defaultListOption = "all".toList ∧
    GetState { defaultListOption with Opened := true, State := "closed".toList }
      = "opened".toList := by
  refine ⟨?_, ?_, ?_, ?_, by decide, ?_, ?_, ?_, by decide, by decide⟩
  · intro l h; simp [GetState, h]
  · intro l h1 h2; simp [GetState, h1, h2]
  · intro l h1 h2 h3; simp [GetState, h1, h2, h3]
  · intro l h1 h2 h3; simp [GetState, h1, h2, h3]
  · intro l h; simp [GetScope, h]
  · intro l h1 h2; simp [GetScope, h1, h2]
  · intro l h1 h2; simp [GetScope, h1, h2]

/-- Claim C7 witness: the precedence theorem applied at the concrete bundle
with the opened flag set together with an explicit state "closed". -/
theorem getState_getScope_precedence_witness :
    GetState { defaultListOption with Opened := true, State := "closed".toList }
      = "opened".toList :=
  getState_getScope_precedence.1
    { defaultListOption with Opened := true, State := "closed".toList } rfl

/-- Claim C3: `getMethod` follows the fixed precedence.  With a positional
identifier present: the edit flag yields the update-via-editor method, else
any non-default content field (title, message, state-event, assignee-id)
yields the update method, else the show (detail) method.  With no
identifier: the edit flag yields the create-via-editor method, else a
non-empty title yields the create method, else the all-project flag yields
the list-all method, else the list-for-project method; so edit together
with a title and an identifier yields update-via-editor. -/
theorem getMethod_precedence :
    (∀ (cu : CreateUpdateMergeRequestOption) (lo : ListMergeRequestOption)
       (args : List GoStr) (iid : Int),
      validMergeRequestIID args = .ok iid → args ≠ [] →
        (cu.Edit = true → getMethod cu lo args = .ok (.updateOnEditor iid)) ∧
        (cu.Edit = false → hasCreateUpdateOption cu = true →
          getMethod cu lo args = .ok (.update iid)) ∧
        (cu.Edit = false → hasCreateUpdateOption cu = false →
          getMethod cu lo args = .ok (.detail iid))) ∧
    (∀ (cu : CreateUpdateMergeRequestOption) (lo : ListMergeRequestOption),
        (cu.Edit = true → getMethod cu lo [] = .ok .createOnEditor) ∧
        (cu.Edit = false → cu.Title ≠ [] → getMethod cu lo [] = .ok .create) ∧
        (cu.Edit = false → cu.Title = [] → lo.AllProject = true →
          getMethod cu lo [] = .ok .listAll) ∧
        (cu.Edit = false → cu.Title = [] → lo.AllProject = false →
          getMethod cu lo [] = .ok .list)) := by
  constructor
  · intro cu lo args iid hvalid hne
    have hlen : args.length > 0 := List.length_pos.mpr hne
    refine ⟨?_, ?_, ?_⟩
    · intro hedit
      simp [getMethod, hvalid, hlen, hedit]
    · intro hedit hhas
      simp [getMethod, hvalid, hlen, hedit, hhas]
    · intro hedit hhas
      simp [getMethod, hvalid, hlen, hedit, hhas]
  · intro cu lo
    refine ⟨?_, ?_, ?_, ?_⟩
    · intro hedit
      simp [getMethod, validMergeRequestIID, hedit]
    · intro hedit htitle
      have ht : cu.Title.isEmpty = false := by
        cases hT : cu.Title with
        | nil => exact absurd hT htitle
        | cons a t => rfl
      simp [getMethod, validMergeRequestIID, hedit, ht]
    · intro hedit htitle hall
      have ht : cu.Title.isEmpty = true := by rw [htitle]; rfl
      simp [getMethod, validMergeRequestIID, hedit, ht, hall]
    · intro hedit htitle hall
      have ht : cu.Title.isEmpty = true := by rw [htitle]; rfl
      simp [getMethod, validMergeRequestIID, hedit, ht, hall]

/-- Claim C3 witness: with the edit flag, a title "x" and identifier "42",
the selection is update-via-editor with identifier 42. -/
theorem getMethod_precedence_witness :
    getMethod { defaultCreateUpdateOption with Edit := true, Title := "x".toList }
      defaultListOption ["42".toList] = .ok (.updateOnEditor 42) :=
  ((getMethod_precedence.1
    { defaultCreateUpdateOption with Edit := true, Title := "x".toList }
    defaultListOption ["42".toList] 42 (by decide) (by decide)).1 rfl)

/-- Claim C6: discovery with zero usable remote names fails with the
no-remotes error; any single remote whose first resolved URL line fails to
parse makes the whole `GitRemotes` call fail (fail-fast, never a success);
a remote list in which no domain starts with "gitlab" makes
`FilterGitlabRemote` fail with the no-matching-remote error; and
`FilterGitlabRemote` deterministically returns the first match in original
enumeration order. -/
theorem discovery_failure_and_first_match :
    (∀ env : GitEnv, gitOutputsOf env.remoteOut = [] →
      GitRemotes env = .err "No remote setting in this repository".toList) ∧
    (∀ (env : GitEnv) (r url : GoStr), r ∈ gitOutputsOf env.remoteOut →
      (gitOutputsOf (env.getUrlOut r)).head? = some url →
      (∀ x, NewRemoteUrl url ≠ .ok x) →
      ∀ l, GitRemotes env ≠ .ok l) ∧
    (∀ l : List RemoteUrl, (∀ r ∈ l, isGitlabRemote r = false) →
      FilterGitlabRemote l = .err "Not a cloned repository from gitlab.".toList) ∧
    (∀ (l : List RemoteUrl) (r : RemoteUrl), l.find? isGitlabRemote = some r →
      FilterGitlabRemote l = .ok r) := by
  refine ⟨?_, ?_, ?_, ?_⟩
  · intro env h
    simp [GitRemotes, h]
  · intro env r url hr hhead hnotok l hok
    obtain ⟨parsed, h1, h2, h3⟩ := GitRemotes_ok_shape env l hok
    obtain ⟨i, hi⟩ := List.get?_of_mem hr
    obtain ⟨u, hu1, hu2⟩ := h3 i r hi
    cases hnr : NewRemoteUrl url with
    | ok x => exact hnotok x hnr
    | err m => simp [resolveRemote, hhead, hnr] at hu2
    | crash => simp [resolveRemote, hhead, hnr] at hu2
  · intro l h
    have hf : l.filter isGitlabRemote = [] :=
      List.filter_eq_nil_iff.mpr (fun a ha => by simp [h a ha])
    unfold FilterGitlabRemote
    rw [hf]
  · intro l r h
    rw [FilterGitlabRemote_eq_find, h]

/-- Claim C6 witness: with no configured remotes discovery yields the
no-remotes error, and on a list with two matching identities the first one
in enumeration order is selected. -/
theorem discovery_failure_and_first_match_witness :
    GitRemotes { remoteOut := [], getUrlOut := fun _ => [] }
      = .err "No remote setting in this repository".toList ∧
    FilterGitlabRemote
      [zeroRemoteUrl,
       { Url := "u1".toList, Domain := "gitlab.com".toList,
         User := "a".toList, Repository := "b".toList },
       { Url := "u2".toList, Domain := "gitlab.org".toList,
         User := "c".toList, Repository := "d".toList }]
      = .ok { Url := "u1".toList, Domain := "gitlab.com".toList,
              User := "a".toList, Repository := "b".toList } :=
  ⟨discovery_failure_and_first_match.1 { remoteOut := [], getUrlOut := fun _ => [] } rfl,
   discovery_failure_and_first_match.2.2.2 _ _ (by decide)⟩

/-- Claim C8: every well-formed SSH URL `ssh://user@H/O/P.git` (segments
free of "@" and "/") parses to the identity with host H, owner O, project P
and the ".git" extension stripped; every well-formed HTTPS URL
`https://H/O/P` (segments free of "/", owner non-empty) parses to host H,
owner O, project P; and every URL with any other scheme prefix fails with
the unsupported-scheme error carrying the offending string. -/
theorem newRemoteUrl_wellformed :
    (∀ user h o p : GoStr,
      '@' ∉ user → '@' ∉ h → '@' ∉ o → '@' ∉ p →
      '/' ∉ h → '/' ∉ o → '/' ∉ p →
      NewRemoteUrl (sshUrlOf user h o p)
        = .ok { Url := sshUrlOf user h o p, Domain := h, User := o, Repository := p }) ∧
    (∀ h o p : GoStr,
      '/' ∉ h → '/' ∉ o → '/' ∉ p → o ≠ [] →
      NewRemoteUrl (httpsUrlOf h o p)
        = .ok { Url := httpsUrlOf h o p, Domain := h, User := o, Repository := p }) ∧
    (∀ url : GoStr,
      "ssh".toList.isPrefixOf url = false →
      "https".toList.isPrefixOf url = false →
      NewRemoteUrl url = .err ("Invalid remote url: ".toList ++ url)) :=
  ⟨NewRemoteUrl_ssh, NewRemoteUrl_https, NewRemoteUrl_other⟩

/-- Claim C8 witness: the well-formed-parsing theorem applied to the SSH URL
ssh://git@gitlab.com/acme/widgets.git, to the HTTPS URL
https://gitlab.com/acme/widgets, and to the scp-style URL
git@gitlab.com:acme/widgets.git, which has no supported scheme prefix. -/
theorem newRemoteUrl_wellformed_witness :
    NewRemoteUrl (sshUrlOf "git".toList "gitlab.com".toList "acme".toList "widgets".toList)
      = .ok { Url := sshUrlOf "git".toList "gitlab.com".toList "acme".toList "widgets".toList,
              Domain := "gitlab.com".toList, User := "acme".toList,
              Repository := "widgets".toList } ∧
    NewRemoteUrl (httpsUrlOf "gitlab.com".toList "acme".toList "widgets".toList)
      = .ok { Url := httpsUrlOf "gitlab.com".toList "acme".toList "widgets".toList,
              Domain := "gitlab.com".toList, User := "acme".toList,
              Repository := "widgets".toList } ∧
    NewRemoteUrl "git@gitlab.com:acme/widgets.git".toList
      = .err ("Invalid remote url: ".toList ++ "git@gitlab.com:acme/widgets.git".toList) :=
  ⟨newRemoteUrl_wellformed.1 "git".toList "gitlab.com".toList "acme".toList "widgets".toList
      (by decide) (by decide) (by decide) (by decide) (by decide) (by decide) (by decide),
   newRemoteUrl_wellformed.2.1 "gitlab.com".toList "acme".toList "widgets".toList
      (by decide) (by decide) (by decide) (by decide),
   newRemoteUrl_wellformed.2.2 "git@gitlab.com:acme/widgets.git".toList
      (by decide) (by decide)⟩

/-- Claim C9 counterexample: the claim states that trailing whitespace in
resolved URL text is trimmed so that the produced identity equals the one
for the trimmed URL.  A URL line ending in a space refutes this: the space
survives into the project field, and the identity differs from the one
produced for the space-free URL. -/
theorem trailing_space_reaches_identity :
    resolveRemote
      { remoteOut := "origin\n".toList,
        getUrlOut := fun _ => "https://gitlab.com/owner/repo \n".toList }
      "origin".toList
      = .ok { Url := "https://gitlab.com/owner/repo ".toList,
              Domain := "gitlab.com".toList, User := "owner".toList,
              Repository := "repo ".toList } ∧
    resolveRemote
      { remoteOut := "origin\n".toList,
        getUrlOut := fun _ => "https://gitlab.com/owner/repo".toList }
      "origin".toList
      = .ok { Url := "https://gitlab.com/owner/repo".toList,
              Domain := "gitlab.com".toList, User := "owner".toList,
              Repository := "repo".toList } ∧
    ("repo ".toList : GoStr) ≠ "repo".toList := by
  exact ⟨by decide, by decide, by decide⟩

/-- Claim C9 (amended): the discovery caller tolerates a trailing newline in
the resolved URL text — the identity produced for `u ++ "\n"` equals the one
produced for `u` — but other trailing whitespace (such as a trailing space
before the newline) is not trimmed and is preserved into the project
field. -/
theorem trailing_newline_tolerated :
    (∀ (u name : GoStr) (env env2 : GitEnv),
      '\n' ∉ u → (goTrimSpace u).isEmpty = false →
      env.getUrlOut name = u ++ ['\n'] → env2.getUrlOut name = u →
      resolveRemote env name = resolveRemote env2 name) ∧
    resolveRemote
      { remoteOut := "origin\n".toList,
        getUrlOut := fun _ => "https://gitlab.com/owner/repo \n".toList }
      "origin".toList
      = .ok { Url := "https://gitlab.com/owner/repo ".toList,
              Domain := "gitlab.com".toList, User := "owner".toList,
              Repository := "repo ".toList } := by
  constructor
  · intro u name env env2 h1 h2 h3 h4
    unfold resolveRemote
    rw [h3, h4, gitOutputsOf_line_nl u h1 h2, gitOutputsOf_line u h1 h2]
  · decide

/-- Claim C9 witness: the tolerance theorem applied to the URL text
https://gitlab.com/owner/repo with and without its trailing newline. -/
theorem trailing_newline_tolerated_witness :
    resolveRemote
      { remoteOut := "origin\n".toList,
        getUrlOut := fun _ => "https://gitlab.com/owner/repo\n".toList }
      "origin".toList
      = resolveRemote
      { remoteOut := "origin\n".toList,
        getUrlOut := fun _ => "https://gitlab.com/owner/repo".toList }
      "origin".toList :=
  trailing_newline_tolerated.1 "https://gitlab.com/owner/repo".toList "origin".toList
    { remoteOut := "origin\n".toList,
      getUrlOut := fun _ => "https://gitlab.com/owner/repo\n".toList }
    { remoteOut := "origin\n".toList,
      getUrlOut := fun _ => "https://gitlab.com/owner/repo".toList }
    (by decide) (by decide) (by decide) (by decide)

/-- Claim C10: whenever `GitRemotes` succeeds, the returned slice has length
one greater than the number of enumerated remotes; its first element is the
zero-valued `RemoteUrl` with all fields empty, an artifact of
`make([]RemoteUrl, 1)` followed by `append`; the parsed remotes follow in
enumeration order; and the spurious zero identity is excluded from selection
only because its empty domain does not start with "gitlab", so
`FilterGitlabRemote` treats a list headed by it exactly as the list without
it. -/
theorem gitRemotes_prepends_zero_value :
    ∀ (env : GitEnv) (l : List RemoteUrl), GitRemotes env = .ok l →
      l.length = (gitOutputsOf env.remoteOut).length + 1 ∧
      l.get? 0 = some zeroRemoteUrl ∧
      zeroRemoteUrl = { Url := [], Domain := [], User := [], Repository := [] } ∧
      (∀ i r, (gitOutputsOf env.remoteOut).get? i = some r →
        ∃ u, l.get? (i + 1) = some u ∧ resolveRemote env r = .ok u) ∧
      isGitlabRemote zeroRemoteUrl = false ∧
      (∀ rest, FilterGitlabRemote (zeroRemoteUrl :: rest) = FilterGitlabRemote rest) := by
  intro env l hok
  obtain ⟨parsed, h1, h2, h3⟩ := GitRemotes_ok_shape env l hok
  subst h1
  refine ⟨by simp [h2], rfl, rfl, ?_, by decide, ?_⟩
  · intro i r h
    obtain ⟨u, hu1, hu2⟩ := h3 i r h
    exact ⟨u, by simpa using hu1, hu2⟩
  · intro rest
    unfold FilterGitlabRemote
    have : isGitlabRemote zeroRemoteUrl = false := by decide
    simp [List.filter_cons, this]

/-- Claim C10 witness: for a single remote resolving to
https://gitlab.com/acme/widgets, the slice returned by `GitRemotes` has
length 2 (the zero value plus the parsed remote) and starts with the
zero-valued identity. -/
theorem gitRemotes_prepends_zero_value_witness :
    GitRemotes
      { remoteOut := "origin\n".toList,
        getUrlOut := fun _ => "https://gitlab.com/acme/widgets\n".toList }
      = .ok [zeroRemoteUrl,
             { Url := "https://gitlab.com/acme/widgets".toList,
               Domain := "gitlab.com".toList, User := "acme".toList,
               Repository := "widgets".toList }] ∧
    [zeroRemoteUrl,
     { Url := "https://gitlab.com/acme/widgets".toList,
       Domain := "gitlab.com".toList, User := "acme".toList,
       Repository := "widgets".toList }].length
      = (gitOutputsOf
          ({ remoteOut := "origin\n".toList,
             getUrlOut := fun _ => "https://gitlab.com/acme/widgets\n".toList }
            : GitEnv).remoteOut).length + 1 :=
  ⟨by decide,
   (gitRemotes_prepends_zero_value
     { remoteOut := "origin\n".toList,
       getUrlOut := fun _ => "https://gitlab.com/acme/widgets\n".toList }
     [zeroRemoteUrl,
      { Url := "https://gitlab.com/acme/widgets".toList,
        Domain := "gitlab.com".toList, User := "acme".toList,
        Repository := "widgets".toList }] (by decide)).1⟩

/-- Claim C5 witness: the amended identifier-resolution theorem applied to
the concrete argument lists ["abc"] and ["42", "zz"]. -/
theorem validMergeRequestIID_spec_witness :
    validMergeRequestIID ["abc".toList]
      = .err ("Invalid Issue IID. IID: ".toList ++ "abc".toList) ∧
    validMergeRequestIID ["42".toList, "zz".toList] = .ok 42 :=
  ⟨validMergeRequestIID_spec.2.1 "abc".toList [] (by decide),
   validMergeRequestIID_spec.2.2.1 "42".toList ["zz".toList] 42 (by decide)⟩
